import Mathlib

/-!
Verification development for the kilometer-kampioen route-search engine.

Shallow embedding of the core components:
* the traversal ledger (`RouteIndicator`, src/route_finding/route_indicator.py),
* the timetable query (`filter_timetable`, src/data_processing/data_utils.py),
* the distance-graph completion pass (`Dijkstra`,
  src/data_processing/find_intercity_distance.py, and
  `TimetableProcessor.enhance_distances_dict`,
  src/data_processing/process_timetable.py),
* the candidate scoring function and incumbent update of the two search
  strategies (src/route_finding/greedy_dfs.py, src/route_finding/v2_explore_set.py),
* a small heap model for the copy-on-fork semantics of `State.copy`
  (src/route_finding/state.py).

Conventions: Python strings are `String`, kilometre distances are `ℚ`
(the source uses floats; none of the verified properties depend on
rounding), minute timestamps are `Int`, and the numpy `inf` used by the
Dijkstra implementation is `⊤ : WithTop ℚ`.  Python dict-of-dict tables
whose iteration order never matters are total functions returning
`Option`/lists; the one table whose iteration order does matter (the
Dijkstra adjacency dict) is an ordered association list.  Fallible code
(a `raise` in Python) returns `Option`.
-/


/-- Service classes, Settings.TYPE_CONVERSION values: `S` = Sprinter (local),
`I` = Intercity (express). -/
inductive TType where
  | S : TType
  | I : TType
deriving DecidableEq

/-- Settings.TYPE_CONVERSION lookup: the dict maps the string `Spr` to `S`
and the string `Int` to `I`; any other key raises (modelled as `none`). -/
def typeConversion (t : String) : Option TType :=
  if t = "Spr" then some TType.S
  else if t = "Int" then some TType.I
  else none

/-- The traversal ledger, src/route_finding/route_indicator.py.
`indicator_table` is the pandas DataFrame whose cell `(a, b)` holds the
string of class letters that have traversed section `(a, b)` (here a
`List TType`); `intermediate_stations` and `station_distances` are the two
read-only dictionaries loaded by `init_indicator_table`.  Keys absent from
the Python dicts raise `KeyError`; the claims below only touch keys that
are present, so the tables are total functions. -/
structure RouteIndicator where
  indicator_table : String → String → List TType
  intermediate_stations : String → String → List String
  station_distances : String → String → ℚ

/-- Point update of one DataFrame cell (`df.at σ write`). -/
def setCell (tbl : String → String → List TType) (a b : String)
    (v : List TType) : String → String → List TType :=
  fun x y => if x = a ∧ y = b then v else tbl x y

/-- `self.indicator_table.at a, b += short_train_type` : append one class
letter to one cell. -/
def appendCell (tbl : String → String → List TType) (a b : String)
    (t : TType) : String → String → List TType :=
  setCell tbl a b (tbl a b ++ [t])

/-- The two consecutive `.at` appends of `update_indicator_table`
(lines 67-68 and 76-77): cell `(a,b)` then cell `(b,a)`. -/
def recordSection (tbl : String → String → List TType) (a b : String)
    (t : TType) : String → String → List TType :=
  appendCell (appendCell tbl a b t) b a t

/-- Python `zip(stations, stations[1:])` over the intermediate-station
list: every consecutive single-hop pair. -/
def consecPairs (l : List String) : List (String × String) :=
  l.zip l.tail

/-- `RouteIndicator.update_indicator_table` after the train type has been
converted (lines 66-77): record the section, and for an intercity also
record every consecutive hop of its intermediate path. -/
def RouteIndicator.updateCore (ri : RouteIndicator) (fs ts : String)
    (t : TType) : RouteIndicator :=
  let tbl := recordSection ri.indicator_table fs ts t
  if t = TType.I then
    let tbl2 := (consecPairs (ri.intermediate_stations fs ts)).foldl
      (fun tb p => recordSection tb p.1 p.2 t) tbl
    { ri with indicator_table := tbl2 }
  else
    { ri with indicator_table := tbl }

/-- `RouteIndicator.update_indicator_table` (lines 45-77).  The row's
`Station`/`To`/`Type` fields are passed as arguments; an unknown train
type raises `ValueError` (`none`). -/
def RouteIndicator.update_indicator_table (ri : RouteIndicator)
    (fs ts train_type : String) : Option RouteIndicator :=
  (typeConversion train_type).map (ri.updateCore fs ts)

/-- `RouteIndicator.get_distance_counted` (lines 79-130).  Sprinter: the
whole distance iff fewer than two class letters are recorded for the
section, else zero.  Intercity: fold over the consecutive hops of the
intermediate path, adding the hop distance when the hop has exactly one
recorded traversal that is not an intercity, or no recorded traversal. -/
def RouteIndicator.get_distance_counted (ri : RouteIndicator)
    (fs ts train_type : String) (distance : ℚ) : Option ℚ :=
  match typeConversion train_type with
  | none => none
  | some TType.S =>
      some (if (ri.indicator_table fs ts).length < 2 then distance else 0)
  | some TType.I =>
      some ((consecPairs (ri.intermediate_stations fs ts)).foldl
        (fun acc p =>
          let types_driven := ri.indicator_table p.1 p.2
          let intermediate_distance := ri.station_distances p.1 p.2
          if types_driven.length = 1 ∧ TType.I ∉ types_driven then
            acc + intermediate_distance
          else if types_driven.length = 0 then
            acc + intermediate_distance
          else acc) 0)

/-- A ledger over an empty indicator table (what `init_indicator_table`
produces: every cell the empty string), with no intermediate stations and
zero distances; fixture for the sprinter scenario. -/
def emptyIndicator : RouteIndicator :=
  { indicator_table := fun _ _ => []
    intermediate_stations := fun _ _ => []
    station_distances := fun _ _ => 0 }

/-- Ledger after one sprinter traversal of section A-B. -/
def sprVisit1 : RouteIndicator := emptyIndicator.updateCore "A" "B" TType.S

/-- Ledger after two sprinter traversals of section A-B. -/
def sprVisit2 : RouteIndicator := sprVisit1.updateCore "A" "B" TType.S

/-- Fixture: the intermediate-path table entry used by the express
counterexample: the express section A-C passes through B. -/
def interABC : String → String → List String := fun x y =>
  if x = "A" ∧ y = "C" then ["A", "B", "C"]
  else if x = "C" ∧ y = "A" then ["C", "B", "A"]
  else []

/-- Fixture: hop distances A-B = 3 km and B-C = 5 km. -/
def distsABC : String → String → ℚ := fun x y =>
  if (x = "A" ∧ y = "B") ∨ (x = "B" ∧ y = "A") then 3
  else if (x = "B" ∧ y = "C") ∨ (x = "C" ∧ y = "B") then 5
  else 0

/-- Fixture: fresh ledger over the A-B-C geometry. -/
def riBase : RouteIndicator :=
  { indicator_table := fun _ _ => []
    intermediate_stations := interABC
    station_distances := distsABC }

/-- Fixture: ledger after the local class has traversed hop A-B twice
(the express class has never touched it). -/
def riDoubleLocal : RouteIndicator :=
  (riBase.updateCore "A" "B" TType.S).updateCore "A" "B" TType.S

/-- Symmetry of an indicator table: cell (a,b) always equals cell (b,a). -/
def symmTable (tbl : String → String → List TType) : Prop :=
  ∀ a b, tbl a b = tbl b a

/-- A sequence of `update_indicator_table` calls, stopping at the
`ValueError` of an unknown train type. -/
def applyUpdates : RouteIndicator → List (String × String × String) →
    Option RouteIndicator
  | ri, [] => some ri
  | ri, u :: us =>
      match ri.update_indicator_table u.1 u.2.1 u.2.2 with
      | none => none
      | some r1 => applyUpdates r1 us

/-- Run parameters read by `filter_timetable` from the Parameters
dataclass in src/settings.py: `MIN_TRANSFER_TIME`, `MAX_TRANSFER_TIME`
and the end-time bound `END_TIME` converted to minutes-from-epoch
(`timestamp_to_int`). -/
structure SearchParams where
  min_transfer_time : Int
  max_transfer_time : Int
  end_time : Int

/-- One row of the processed timetable: departure station (the index),
destination, integer-minute departure/arrival stamps, train id, train
type string and distance in km (columns added by process_timetable.py). -/
structure Leg where
  station : String
  To : String
  departure_int : Int
  arrival_int : Int
  id : Int
  train_type : String
  distance : ℚ
deriving DecidableEq

/-- `filter_timetable` (src/data_processing/data_utils.py lines 279-320):
keep the rows departing from the given station whose departure is at
least `min_time`, or at least `current_time` on the same train as before,
and at most `max_time`, with arrival at most the end-time bound.  The
pandas boolean-mask selection plus `deepcopy` is a pure filter of the
row list. -/
def filter_timetable (p : SearchParams) (timetable_df : List Leg)
    (station : String) (current_time : Int) (id_previous_train : Int) :
    List Leg :=
  let min_time := current_time + p.min_transfer_time
  let max_time := current_time + p.max_transfer_time
  let end_time_int := p.end_time
  timetable_df.filter (fun leg => decide (
    leg.station = station
    ∧ (min_time ≤ leg.departure_int
        ∨ (current_time ≤ leg.departure_int ∧ leg.id = id_previous_train))
    ∧ leg.departure_int ≤ max_time
    ∧ leg.arrival_int ≤ end_time_int))

/-- Extended distances for the Dijkstra data structures: numpy `inf` is
`⊤`. -/
abbrev DistW := WithTop ℚ

/-- The Dijkstra adjacency dict (`self.graph`), an ordered association
list because Python dict insertion order drives both the node list and
the tie-breaking of `min`. -/
abbrev AdjList := List (String × List (String × ℚ))

/-- `self.nodes = list(self.graph)`: the keys in insertion order. -/
def nodesOf (g : AdjList) : List String := g.map (fun p => p.1)

/-- `self.graph s`: the neighbour list of `s` (`[]` when `s` is not a
key; Python raises `KeyError` there, a case no verified statement
touches because the loop only queries queued nodes). -/
def lookupAdj (g : AdjList) (s : String) : List (String × ℚ) :=
  match g.find? (fun p => decide (p.1 = s)) with
  | some p => p.2
  | none => []

/-- `t in distances[f]` content of the nested dict, as an Option. -/
def adjOpt (g : AdjList) (f t : String) : Option ℚ :=
  ((lookupAdj g f).find? (fun p => decide (p.1 = t))).map (fun p => p.2)

/-- The mutable state of one `construct_paths` run: `self.start`,
`self.dists` and `self.parents` (both dicts totalised; entries outside
the node set stay at their initial value and are never read by a
non-crashing Python run). -/
structure DState where
  start : String
  dists : String → DistW
  parents : String → Option String

/-- `Dijkstra._init_data_structures`: every node at `inf` except the
start at `0`, no parents. -/
def initDState (start : String) : DState :=
  { start := start
    dists := fun x => if x = start then 0 else ⊤
    parents := fun _ => none }

/-- The inner relaxation loop of `construct_paths` (lines 121-126): for
each `(neighbor, dist)` of `current` in dict order, relax on strict
improvement. -/
def relaxAll (current : String) (nbrs : List (String × ℚ))
    (st : DState) : DState :=
  nbrs.foldl (fun st p =>
    let new_dist_current := st.dists current + (p.2 : DistW)
    if new_dist_current < st.dists p.1 then
      { st with
        dists := fun x => if x = p.1 then new_dist_current else st.dists x
        parents := fun x => if x = p.1 then some current else st.parents x }
    else st) st

/-- `Dijkstra._get_min_dist`: the first queue node attaining the minimal
distance (Python `min` keeps the first strict minimum in insertion
order), removed from the queue (first occurrence). -/
def getMinDist (dists : String → DistW) (queue : List String) :
    Option (String × List String) :=
  match queue with
  | [] => none
  | x :: xs =>
      let m := xs.foldl (fun best n => if dists n < dists best then n else best) x
      some (m, queue.erase m)

/-- The while-loop of `construct_paths`; each iteration removes exactly
one queue element, so fuel equal to the queue length runs the loop to
exhaustion. -/
def dijkstraLoop (g : AdjList) : Nat → DState → List String → DState
  | 0, st, _ => st
  | fuel + 1, st, queue =>
      match getMinDist st.dists queue with
      | none => st
      | some (current, queue2) =>
          dijkstraLoop g fuel (relaxAll current (lookupAdj g current) st) queue2

/-- `Dijkstra.construct_paths` (lines 108-126). -/
def construct_paths (g : AdjList) (start : String) : DState :=
  dijkstraLoop g (nodesOf g).length (initDState start) (nodesOf g)

/-- The backtracking while-loop of `_find_shortest_path`: Python loops
`while parent in self.parents` (the parents keys are the graph nodes),
prepending and stepping to the parent.  With nonnegative weights the
parent chain is acyclic, so fuel `nodes.length + 1` covers every
terminating Python run. -/
def backtrackPath (parents : String → Option String) (nodes : List String) :
    Nat → Option String → List String → List String
  | 0, _, path => path
  | _ + 1, none, path => path
  | fuel + 1, some s, path =>
      if s ∈ nodes then backtrackPath parents nodes fuel (parents s) (s :: path)
      else path

/-- `Dijkstra._find_shortest_path` (lines 128-147). -/
def find_shortest_path (dst : DState) (nodes : List String)
    (goal : String) : List String :=
  if goal ∈ nodes ∨ dst.start = goal then
    backtrackPath dst.parents nodes (nodes.length + 1) (some goal) []
  else []

/-- `Dijkstra.search` (lines 149-162): the backtracked path and
`self.dists goal`. -/
def djSearch (g : AdjList) (dst : DState) (goal : String) :
    List String × DistW :=
  (find_shortest_path dst (nodesOf g) goal, dst.dists goal)

/-- The evolving state of `TimetableProcessor.enhance_distances_dict`:
`self.distances` (whose iteration order is never consulted, hence a
total function into `Option`) and `self.intermediate_stations`. -/
structure EnhanceState where
  distances : String → String → Option DistW
  inter : String → String → Option (List String)

/-- The content of `load_distances()` viewed as the initial
`self.distances`. -/
def initDistances (g : AdjList) : String → String → Option DistW :=
  fun f t => (adjOpt g f t).map (fun q => (q : DistW))

/-- The branchwork of `_update_intermediate_stations` on one cell: a
missing entry is set, an existing entry is replaced only by a strictly
longer path. -/
def keepLonger (existing : Option (List String)) (path : List String) :
    Option (List String) :=
  match existing with
  | none => some path
  | some e => if e.length < path.length then some path else some e

/-- `TimetableProcessor._update_intermediate_stations` (lines 65-94):
record `path` for (f,t) unless a strictly longer path is already
recorded. -/
def updInter (T : String → String → Option (List String)) (f t : String)
    (path : List String) : String → String → Option (List String) :=
  fun x y => if x = f ∧ y = t then keepLonger (T f t) path else T x y

/-- One directional write `self.distances f t = v`. -/
def updDist (D : String → String → Option DistW) (f t : String)
    (v : DistW) : String → String → Option DistW :=
  fun x y => if x = f ∧ y = t then some v else D x y

/-- One iteration of the pair loop of `enhance_distances_dict`
(lines 111-132).  `g0` is the Dijkstra instance's graph: the deepcopy of
`self.distances` taken once before the loop, never updated afterwards.
When the pair is absent, run Dijkstra on `g0`; record the distance in
both directions when the path is nonempty and the distance positive;
when the pair is present, the path is the direct `f, t`.  The
intermediate-station table is updated in both directions either way. -/
def enhanceStep (g0 : AdjList) (es : EnhanceState) (pr : String × String) :
    EnhanceState :=
  let f := pr.1
  let t := pr.2
  match es.distances f t with
  | none =>
      let dst := construct_paths g0 f
      let path := (djSearch g0 dst t).1
      let distance := (djSearch g0 dst t).2
      let es2 :=
        if path ≠ [] ∧ 0 < distance then
          { es with distances :=
              updDist (updDist es.distances f t distance) t f distance }
        else es
      { es2 with inter := updInter (updInter es2.inter f t path) t f path.reverse }
  | some _ =>
      let path := [f, t]
      { es with inter := updInter (updInter es.inter f t path) t f path.reverse }

/-- `TimetableProcessor.enhance_distances_dict` (lines 96-132) over the
deduplicated pair list drawn from the timetable. -/
def enhance_distances_dict (g0 : AdjList) (pairs : List (String × String)) :
    EnhanceState :=
  pairs.foldl (enhanceStep g0) { distances := initDistances g0, inter := fun _ _ => none }

/-- Fixture for C4: the chain a-b-c-d with unit distances; the timetable
pairs are (a,c) then (a,d). -/
def g4 : AdjList :=
  [("a", [("b", 1)]), ("b", [("a", 1), ("c", 1)]),
   ("c", [("b", 1), ("d", 1)]), ("d", [("c", 1)])]

/-- Fixture for C4: `g4` enhanced with the first pair's recorded distance
a-c = 2 in both directions (dict insertion order appends the new keys):
the graph the claim says the second pair's query runs on. -/
def g4enh : AdjList :=
  [("a", [("b", 1), ("c", 2)]), ("b", [("a", 1), ("c", 1)]),
   ("c", [("b", 1), ("d", 1), ("a", 2)]), ("d", [("c", 1)])]

/-- Fixture for C5: two disconnected components a-b and c-d. -/
def g5 : AdjList :=
  [("a", [("b", 1)]), ("b", [("a", 1)]), ("c", [("d", 1)]), ("d", [("c", 1)])]

/-- Invariant of a `construct_paths` run from `start` on a graph with
nonnegative weights: the start keeps distance 0 and no parent, and every
distance stays nonnegative. -/
def dijkstraInv (start : String) (st : DState) : Prop :=
  st.start = start ∧ st.dists start = 0 ∧ st.parents start = none
  ∧ ∀ x, 0 ≤ st.dists x

/-- Symmetry of the evolving enhancement state: distances agree in both
directions, and the recorded path for (b,a) is the reverse of the one
for (a,b). -/
def SymInv (es : EnhanceState) : Prop :=
  (∀ a b, es.distances a b = es.distances b a)
  ∧ (∀ a b, (es.inter a b).map List.reverse = es.inter b a)

/-- Fixture for the C6 witness: the symmetric chain A-B-C. -/
def g6 : AdjList :=
  [("A", [("B", 2)]), ("B", [("A", 2), ("C", 4)]), ("C", [("B", 4)])]

/-- The pure fields of a search `State` (src/route_finding/state.py)
touched by one search step. -/
structure PureState where
  total_distance : ℚ
  route : List Leg
  route_indicator : RouteIndicator
  current_time : Int
  current_station : String
  id_previous_train : Int

/-- The incumbent update of `GreedyDFS.dfs` (greedy_dfs.py lines
210-217): replace best distance and best state exactly when the new
state's cumulative counted distance is strictly greater. -/
def GreedyDFS.stepIncumbent (best_distance : ℚ) (best_state : PureState)
    (new_state : PureState) : ℚ × PureState :=
  if new_state.total_distance > best_distance then
    (new_state.total_distance, new_state)
  else (best_distance, best_state)

/-- The incumbent over a whole run of `GreedyDFS.dfs`: the fold of the
per-new-state update over the sequence of states the search creates. -/
def GreedyDFS.runIncumbent (best_distance : ℚ) (best_state : PureState)
    (trace : List PureState) : ℚ × PureState :=
  trace.foldl (fun acc n => GreedyDFS.stepIncumbent acc.1 acc.2 n)
    (best_distance, best_state)

/-- The incumbent update of `ExploreSet.explore_state`
(v2_explore_set.py lines 219-228), textually the same comparison. -/
def ExploreSet.stepIncumbent (best_distance : ℚ) (best_state : PureState)
    (new_state : PureState) : ℚ × PureState :=
  if new_state.total_distance > best_distance then
    (new_state.total_distance, new_state)
  else (best_distance, best_state)

/-- The incumbent over a whole `ExploreSet` run. -/
def ExploreSet.runIncumbent (best_distance : ℚ) (best_state : PureState)
    (trace : List PureState) : ℚ × PureState :=
  trace.foldl (fun acc n => ExploreSet.stepIncumbent acc.1 acc.2 n)
    (best_distance, best_state)

/-- One scored row of the transfer-options frame after
`_apply_score_function`: the original leg plus the `Current_Time`,
`Waiting_Time`, `Distance_Counted` and `Score` columns. -/
structure ScoredRow where
  leg : Leg
  current_time : Int
  waiting_time : Int
  distance_counted : ℚ
  score : ℚ
deriving DecidableEq

/-- One row's scoring (steps 1-3 of `_apply_score_function`): waiting
time is departure minus the state clock, the counted distance comes from
the ledger (propagating its `ValueError`), and the score divides the
counted distance by waiting plus travel time (the `Duration` column is
`Arrival_Int - Departure_Int` by `add_minute_stamps`).  Note ℚ division
by zero yields 0 where numpy float division would give inf/nan; no
verified statement rests on that cell. -/
def scoreRow (state_time : Int) (ri : RouteIndicator) (l : Leg) :
    Option ScoredRow :=
  (ri.get_distance_counted l.station l.To l.train_type l.distance).map
    (fun dc =>
      let waiting_time := l.departure_int - state_time
      { leg := l
        current_time := state_time
        waiting_time := waiting_time
        distance_counted := dc
        score := dc / ((waiting_time : ℚ)
          + ((l.arrival_int - l.departure_int : Int) : ℚ)) })

/-- The pandas `.apply` over the option rows, failing when any row
fails. -/
def applyRows (f : Leg → Option ScoredRow) : List Leg → Option (List ScoredRow)
  | [] => some []
  | l :: ls =>
      match f l, applyRows f ls with
      | some r, some rs => some (r :: rs)
      | _, _ => none

/-- `sort_values` by the Score column, descending (step 4). -/
def sortByScoreDesc (rows : List ScoredRow) : List ScoredRow :=
  rows.mergeSort (fun r1 r2 => decide (r2.score ≤ r1.score))

/-- `GreedyDFS._apply_score_function` (greedy_dfs.py lines 98-154):
score every option against the state clock and ledger, sort by score
descending, keep the top 2 (`.head 2`). -/
def GreedyDFS.apply_score_function (state_time : Int) (ri : RouteIndicator)
    (transfer_options : List Leg) : Option (List ScoredRow) :=
  (applyRows (scoreRow state_time ri) transfer_options).map
    (fun rows => (sortByScoreDesc rows).take 2)

/-- `ExploreSet._apply_score_function` (v2_explore_set.py lines 106-166):
the same computation (the only textual difference in the source is
reading the departure station from the `Station` column rather than the
index). -/
def ExploreSet.apply_score_function (state_time : Int) (ri : RouteIndicator)
    (transfer_options : List Leg) : Option (List ScoredRow) :=
  (applyRows (scoreRow state_time ri) transfer_options).map
    (fun rows => (sortByScoreDesc rows).take 2)

/-- Fixture: a single sprinter leg for the C8 witness. -/
def legA : Leg :=
  { station := "A", To := "B", departure_int := 10, arrival_int := 20
    id := 1, train_type := "Spr", distance := 7 }

/-- Fixture: the scored row `legA` receives at clock 5 with a fresh
ledger: waiting 5, duration 10, counted distance 7, score 7/15. -/
def rowA : ScoredRow :=
  { leg := legA, current_time := 5, waiting_time := 5
    distance_counted := 7, score := 7 / 15 }

/-- A heap for the mutable objects a search `State` refers to: the
`RouteIndicator` instances and the route lists live in numbered cells;
`nextId` is the allocation frontier (every live reference is below it). -/
structure Mem where
  nextId : Nat
  tables : Nat → RouteIndicator
  routes : Nat → List Leg

/-- A search `State` as a record of scalar fields plus references into
the heap for its two mutable components (`self.route_indicator` and
`self.route`). -/
structure StateRef where
  total_distance : ℚ
  routeRef : Nat
  tableRef : Nat
  current_time : Int
  current_station : String
  id_previous_train : Int

/-- `State.copy` (state.py lines 65-78) together with
`RouteIndicator.copy` (route_indicator.py lines 132-143): allocate a
fresh table cell holding a copy of the indicator (the DataFrame is
`.copy()`-ed; the read-only auxiliary dicts are shared by value) and a
fresh list cell holding `route.copy()`; scalar fields are copied. -/
def copyState (m : Mem) (st : StateRef) : Mem × StateRef :=
  ({ nextId := m.nextId + 2
     tables := fun i => if i = m.nextId then m.tables st.tableRef else m.tables i
     routes := fun i => if i = m.nextId + 1 then m.routes st.routeRef else m.routes i },
   { st with tableRef := m.nextId, routeRef := m.nextId + 1 })

/-- The six updates a search step performs on a freshly forked state
(greedy_dfs.py lines 203-208, v2_explore_set.py lines 207-212). -/
inductive StateUpd where
  | setTime (t : Int) : StateUpd
  | setStation (s : String) : StateUpd
  | setPrevId (i : Int) : StateUpd
  | updateIndicator (fs ts : String) (ty : TType) : StateUpd
  | addDistance (d : ℚ) : StateUpd
  | appendLeg (l : Leg) : StateUpd

/-- Apply one update: scalar fields change in the state record, the
ledger update and the route append write through the references. -/
def applyStateUpd (m : Mem) (st : StateRef) : StateUpd → Mem × StateRef
  | StateUpd.setTime t => (m, { st with current_time := t })
  | StateUpd.setStation s => (m, { st with current_station := s })
  | StateUpd.setPrevId i => (m, { st with id_previous_train := i })
  | StateUpd.addDistance d =>
      (m, { st with total_distance := st.total_distance + d })
  | StateUpd.appendLeg l =>
      ({ m with routes := fun i =>
          if i = st.routeRef then m.routes st.routeRef ++ [l] else m.routes i },
        st)
  | StateUpd.updateIndicator fs ts ty =>
      ({ m with tables := fun i =>
          if i = st.tableRef then (m.tables st.tableRef).updateCore fs ts ty
          else m.tables i },
        st)

/-- Everything observable about a state: its scalar fields and the
current contents of its two heap cells. -/
def obsState (m : Mem) (st : StateRef) :
    ℚ × List Leg × RouteIndicator × Int × String × Int :=
  (st.total_distance, m.routes st.routeRef, m.tables st.tableRef,
    st.current_time, st.current_station, st.id_previous_train)

/-- Fixture heap for the C9 witness: two live cells. -/
def m0 : Mem :=
  { nextId := 2, tables := fun _ => emptyIndicator, routes := fun _ => [] }

/-- Fixture state for the C9 witness: table in cell 0, route in cell 1. -/
def st0 : StateRef :=
  { total_distance := 0, routeRef := 1, tableRef := 0
    current_time := 0, current_station := "A", id_previous_train := 0 }

example : sprVisit1.indicator_table "A" "B" = [TType.S] := by decide
example : sprVisit2.indicator_table "A" "B" = [TType.S, TType.S] := by decide
example : sprVisit2.indicator_table "B" "A" = [TType.S, TType.S] := by decide
example : emptyIndicator.get_distance_counted "A" "B" "Spr" 7 = some 7 := by decide
example : sprVisit2.get_distance_counted "A" "B" "Spr" 7 = some 0 := by decide

/-- C1: a local-class (Sprinter) leg over a section is credited its full
distance exactly while the ledger records fewer than two traversals of
that section (by any classes combined), and zero once two are recorded;
in particular three local visits to one section credit the full length on
visits 1 and 2 and zero on visit 3. -/
theorem sprinter_counted_at_most_twice (ri : RouteIndicator)
    (a b : String) (d : ℚ) :
    ri.get_distance_counted a b "Spr" d
      = some (if (ri.indicator_table a b).length < 2 then d else 0)
    ∧ emptyIndicator.update_indicator_table "A" "B" "Spr" = some sprVisit1
    ∧ sprVisit1.update_indicator_table "A" "B" "Spr" = some sprVisit2
    ∧ emptyIndicator.get_distance_counted "A" "B" "Spr" d = some d
    ∧ sprVisit1.get_distance_counted "A" "B" "Spr" d = some d
    ∧ sprVisit2.get_distance_counted "A" "B" "Spr" d = some 0 :=
  ⟨rfl, rfl, rfl, rfl, rfl, rfl⟩

/-- One step of the intercity fold of `get_distance_counted` rewritten:
a hop is credited exactly when it has fewer than two recorded traversals
and none by the express class. -/
theorem intercity_hop_step (acc d : ℚ) (td : List TType) :
    (if td.length = 1 ∧ TType.I ∉ td then acc + d
     else if td.length = 0 then acc + d
     else acc)
    = acc + (if td.length < 2 ∧ TType.I ∉ td then d else 0) := by
  rcases td with _ | ⟨x, _ | ⟨y, rest⟩⟩
  · simp
  · by_cases hI : TType.I = x <;> simp [hI]
  · simp

/-- Fold-to-sum: the intercity accumulation over the hop list is the sum
of the per-hop credited distances. -/
theorem intercity_fold_eq_sum (ri : RouteIndicator)
    (l : List (String × String)) (acc : ℚ) :
    l.foldl (fun acc p =>
      let types_driven := ri.indicator_table p.1 p.2
      let intermediate_distance := ri.station_distances p.1 p.2
      if types_driven.length = 1 ∧ TType.I ∉ types_driven then
        acc + intermediate_distance
      else if types_driven.length = 0 then
        acc + intermediate_distance
      else acc) acc
    = acc + (l.map (fun p =>
        if (ri.indicator_table p.1 p.2).length < 2
            ∧ TType.I ∉ ri.indicator_table p.1 p.2
        then ri.station_distances p.1 p.2 else 0)).sum := by
  induction l generalizing acc with
  | nil => simp
  | cons p l ih =>
      simp only [List.foldl_cons, List.map_cons, List.sum_cons]
      rw [intercity_hop_step, ih]
      ring

/-- C2 counterexample: after two local-class traversals of hop A-B, the
express class has never traversed A-B, yet an express leg A-C (hops A-B
and B-C, 3 km + 5 km) is credited only 5 km — not the 8 km the claim
("independent of how many times the local class has used it") predicts. -/
theorem express_hop_blocked_by_two_local_traversals :
    riDoubleLocal.get_distance_counted "A" "C" "Int" 8 = some 5
    ∧ TType.I ∉ riDoubleLocal.indicator_table "A" "B"
    ∧ riDoubleLocal.station_distances "A" "B" = 3
    ∧ riDoubleLocal.station_distances "B" "C" = 5
    ∧ some (5 : ℚ) ≠ some ((3 : ℚ) + 5) := by
  refine ⟨?_, by decide, by decide, by decide, by norm_num⟩
  have h2 : riDoubleLocal.get_distance_counted "A" "C" "Int" 8
      = some (0 + ((consecPairs (riDoubleLocal.intermediate_stations "A" "C")).map
          (fun p =>
            if (riDoubleLocal.indicator_table p.1 p.2).length < 2
                ∧ TType.I ∉ riDoubleLocal.indicator_table p.1 p.2
            then riDoubleLocal.station_distances p.1 p.2 else 0)).sum) := by
    rw [← intercity_fold_eq_sum riDoubleLocal
      (consecPairs (riDoubleLocal.intermediate_stations "A" "C")) 0]
    rfl
  rw [h2]
  rw [show consecPairs (riDoubleLocal.intermediate_stations "A" "C")
      = [("A", "B"), ("B", "C")] from by decide]
  simp only [List.map_cons, List.map_nil, List.sum_cons, List.sum_nil,
    show riDoubleLocal.indicator_table "A" "B" = [TType.S, TType.S] from by decide,
    show riDoubleLocal.indicator_table "B" "C" = [] from by decide,
    show riDoubleLocal.station_distances "B" "C" = 5 from by decide]
  norm_num

/-- C2 amended: an express-class leg is evaluated hop-by-hop over its
intermediate path, and each hop contributes its own distance exactly when
the hop has fewer than two recorded traversals and none of them is by the
express class (so two prior local-class traversals also block the hop). -/
theorem express_counted_hop_by_hop (ri : RouteIndicator)
    (a b : String) (d : ℚ) :
    ri.get_distance_counted a b "Int" d
      = some (((consecPairs (ri.intermediate_stations a b)).map
          (fun p =>
            if (ri.indicator_table p.1 p.2).length < 2
                ∧ TType.I ∉ ri.indicator_table p.1 p.2
            then ri.station_distances p.1 p.2 else 0)).sum) := by
  show some _ = some _
  rw [intercity_fold_eq_sum]
  rw [zero_add]

/-- Pointwise description of `recordSection`: the cell (b,a), the cell
(a,b), and all other cells; when a = b the same cell is appended twice. -/
theorem recordSection_apply (tbl : String → String → List TType)
    (a b : String) (t : TType) (x y : String) :
    recordSection tbl a b t x y
      = if x = b ∧ y = a then
          (if a = b then tbl a b ++ [t] else tbl b a) ++ [t]
        else if x = a ∧ y = b then tbl a b ++ [t]
        else tbl x y := by
  simp only [recordSection, appendCell, setCell]
  have hiff : (b = a ∧ a = b) ↔ (a = b) := ⟨fun h => h.2, fun h => ⟨h.symm, h⟩⟩
  simp only [hiff]

/-- The paired cell appends of one section update keep the table
symmetric. -/
theorem recordSection_symm (tbl : String → String → List TType)
    (h : symmTable tbl) (a b : String) (t : TType) :
    symmTable (recordSection tbl a b t) := by
  intro x y
  rw [recordSection_apply, recordSection_apply]
  have hQ1 : (y = b ∧ x = a) ↔ (x = a ∧ y = b) := and_comm
  have hQ2 : (y = a ∧ x = b) ↔ (x = b ∧ y = a) := and_comm
  simp only [hQ1, hQ2]
  by_cases hP1 : x = b ∧ y = a <;> by_cases hP2 : x = a ∧ y = b
  · have hab : a = b := hP2.1.symm.trans hP1.1
    simp [hP1, hP2, hab]
  · have hab : a ≠ b := by
      intro hab
      exact hP2 ⟨hP1.1.trans hab.symm, hP1.2.trans hab⟩
    simp [hP1, hP2, hab, h b a]
  · have hab : a ≠ b := by
      intro hab
      exact hP1 ⟨hP2.1.trans hab, hP2.2.trans hab.symm⟩
    simp [hP1, hP2, hab, h a b]
  · simp [hP1, hP2, h x y]

/-- Folding section updates over any hop list keeps the table symmetric. -/
theorem foldl_recordSection_symm (t : TType) (l : List (String × String)) :
    ∀ tbl, symmTable tbl →
      symmTable (l.foldl (fun tb p => recordSection tb p.1 p.2 t) tbl) := by
  induction l with
  | nil => intro tbl h; exact h
  | cons p l ih =>
      intro tbl h
      exact ih _ (recordSection_symm tbl h p.1 p.2 t)

/-- One ledger update keeps the indicator table symmetric. -/
theorem updateCore_symm (ri : RouteIndicator)
    (h : symmTable ri.indicator_table) (fs ts : String) (t : TType) :
    symmTable (ri.updateCore fs ts t).indicator_table := by
  cases t with
  | S => exact recordSection_symm _ h _ _ _
  | I => exact foldl_recordSection_symm _ _ _ (recordSection_symm _ h _ _ _)

/-- C10: the ledger's traversal record is symmetric at all times: from any
symmetric indicator table (in particular the initialized all-empty one),
any sequence of `update_indicator_table` calls that succeeds leaves a
table in which cell (a,b) equals cell (b,a) for every pair of stations. -/
theorem ledger_symmetric (ri : RouteIndicator)
    (h : symmTable ri.indicator_table)
    (us : List (String × String × String)) (ri' : RouteIndicator)
    (h2 : applyUpdates ri us = some ri') :
    symmTable ri'.indicator_table := by
  induction us generalizing ri with
  | nil =>
      simp only [applyUpdates] at h2
      cases h2
      exact h
  | cons u us ih =>
      simp only [applyUpdates] at h2
      rcases hu : ri.update_indicator_table u.1 u.2.1 u.2.2 with _ | r1
      · rw [hu] at h2; simp at h2
      · rw [hu] at h2
        have hr1 : symmTable r1.indicator_table := by
          unfold RouteIndicator.update_indicator_table at hu
          rcases htc : typeConversion u.2.2 with _ | t
          · rw [htc] at hu; simp at hu
          · rw [htc] at hu
            cases hu
            exact updateCore_symm ri h u.1 u.2.1 t
        exact ih r1 hr1 h2

/-- Witness for C10: the empty table is symmetric, one concrete sprinter
update succeeds, and the theorem yields symmetry of the result. -/
theorem ledger_symmetric_witness :
    symmTable emptyIndicator.indicator_table
    ∧ applyUpdates emptyIndicator [("A", "B", "Spr")] = some sprVisit1
    ∧ symmTable sprVisit1.indicator_table :=
  ⟨fun _ _ => rfl, rfl,
    ledger_symmetric emptyIndicator (fun _ _ => rfl)
      [("A", "B", "Spr")] sprVisit1 rfl⟩

/-- C3: the timetable query returns exactly the legs departing from the
given station whose arrival respects the global end-time bound and whose
departure lies in the transfer window — `now + min_transfer` to
`now + max_transfer` for a fresh train, or `now` to `now + max_transfer`
for the same train as before; and the query is a pure read, its result a
sublist of the unmodified timetable. -/
theorem filter_timetable_eligibility (p : SearchParams)
    (timetable_df : List Leg) (station : String)
    (current_time id_previous_train : Int) (leg : Leg) :
    (leg ∈ filter_timetable p timetable_df station current_time
        id_previous_train
      ↔ leg ∈ timetable_df
        ∧ leg.station = station
        ∧ leg.arrival_int ≤ p.end_time
        ∧ ((current_time + p.min_transfer_time ≤ leg.departure_int
              ∧ leg.departure_int ≤ current_time + p.max_transfer_time)
            ∨ (current_time ≤ leg.departure_int
              ∧ leg.departure_int ≤ current_time + p.max_transfer_time
              ∧ leg.id = id_previous_train)))
    ∧ (filter_timetable p timetable_df station current_time
        id_previous_train).Sublist timetable_df := by
  constructor
  · simp only [filter_timetable, List.mem_filter, decide_eq_true_eq]
    constructor
    · rintro ⟨hm, hs, hw, hdep, harr⟩
      rcases hw with hw | hw
      · exact ⟨hm, hs, harr, Or.inl ⟨hw, hdep⟩⟩
      · exact ⟨hm, hs, harr, Or.inr ⟨hw.1, hdep, hw.2⟩⟩
    · rintro ⟨hm, hs, harr, hw⟩
      rcases hw with ⟨h1, h2⟩ | ⟨h1, h2, h3⟩
      · exact ⟨hm, hs, Or.inl h1, h2, harr⟩
      · exact ⟨hm, hs, Or.inr ⟨h1, h3⟩, h2, harr⟩
  · exact List.filter_sublist _

/-- C4 counterexample: processing pairs (a,c) then (a,d) on `g4` records
distance 2 for (a,c), yet the path recorded for the later pair (a,d) is
a,b,c,d — the shortest path in the pre-pass snapshot — whereas the same
Dijkstra code run on the graph enhanced with the recorded a-c edge
(`g4enh`) returns a,c,d.  The enhancement therefore does not reach later
queries: the Dijkstra instance is built once from a deepcopy taken before
the loop. -/
theorem pass_ignores_earlier_recordings :
    (enhance_distances_dict g4 [("a", "c"), ("a", "d")]).distances "a" "c"
      = some ((2 : ℚ) : DistW)
    ∧ (enhance_distances_dict g4 [("a", "c"), ("a", "d")]).inter "a" "d"
      = some ["a", "b", "c", "d"]
    ∧ (djSearch g4enh (construct_paths g4enh "a") "d").1 = ["a", "c", "d"]
    ∧ (["a", "b", "c", "d"] : List String) ≠ ["a", "c", "d"] := by
  refine ⟨?_, ?_, ?_, ?_⟩ <;> with_unfolding_all decide

/-- Both directional distance writes of one recording leave the written
value at the pair, also on the diagonal. -/
theorem updDist_pair_read (D : String → String → Option DistW)
    (f t : String) (v : DistW) :
    updDist (updDist D f t v) t f v f t = some v := by
  by_cases h : f = t ∧ t = f
  · obtain ⟨h1, h2⟩ := h
    subst h1
    simp [updDist]
  · simp [updDist, h]

/-- C4 amended: the shortest-path query of each processed pair is
computed over `g0`, the snapshot of the distance graph deepcopied before
the pass; the state accumulated for earlier pairs cannot change a later
query, and the recorded distance (when the pair's lookup misses) is
exactly the snapshot query's result, recorded only when the path is
nonempty and the distance positive. -/
theorem enhance_query_uses_snapshot (g0 : AdjList) (es : EnhanceState)
    (pr : String × String) (h : es.distances pr.1 pr.2 = none) :
    (enhanceStep g0 es pr).distances pr.1 pr.2
      = if (djSearch g0 (construct_paths g0 pr.1) pr.2).1 ≠ []
            ∧ 0 < (djSearch g0 (construct_paths g0 pr.1) pr.2).2
        then some ((djSearch g0 (construct_paths g0 pr.1) pr.2).2)
        else none := by
  obtain ⟨f, t⟩ := pr
  unfold enhanceStep
  dsimp only at h ⊢
  rw [h]
  by_cases hc : (djSearch g0 (construct_paths g0 f) t).1 ≠ []
      ∧ 0 < (djSearch g0 (construct_paths g0 f) t).2
  · rw [if_pos hc, if_pos hc]
    exact updDist_pair_read _ _ _ _
  · rw [if_neg hc, if_neg hc]
    exact h

/-- Witness for C4 amended: after processing (a,c) on `g4` the pair (a,d)
is still unrecorded, and the theorem applies to the next step. -/
theorem enhance_query_uses_snapshot_witness :
    (enhance_distances_dict g4 [("a", "c")]).distances "a" "d" = none
    ∧ (enhanceStep g4 (enhance_distances_dict g4 [("a", "c")]) ("a", "d")).distances "a" "d"
      = if (djSearch g4 (construct_paths g4 "a") "d").1 ≠ []
            ∧ 0 < (djSearch g4 (construct_paths g4 "a") "d").2
        then some ((djSearch g4 (construct_paths g4 "a") "d").2)
        else none :=
  ⟨by with_unfolding_all decide,
    enhance_query_uses_snapshot g4 (enhance_distances_dict g4 [("a", "c")])
      ("a", "d") (by with_unfolding_all decide)⟩

/-- C5, code bug: for the pair (a,c) of `g5` no path exists (`a` and `c`
lie in different components), yet the pass records distance `inf` for the
pair in both directions: `_find_shortest_path` returns the one-element
list containing the goal (any graph node is a key of `parents`), which is
truthy, and `inf > 0` holds, so the guard `if path and distance > 0`
records `inf` — contradicting the code's own comment ("If a path was
found with some non-zero distance"), the docstring of
`_find_shortest_path` ("Always includes both the start and the goal
nodes"), and the spec. -/
theorem unreachable_pair_recorded_as_infinite :
    adjOpt g5 "a" "c" = none
    ∧ (djSearch g5 (construct_paths g5 "a") "c").1 = ["c"]
    ∧ (djSearch g5 (construct_paths g5 "a") "c").2 = ⊤
    ∧ (enhance_distances_dict g5 [("a", "c")]).distances "a" "c" = some ⊤
    ∧ (enhance_distances_dict g5 [("a", "c")]).distances "c" "a" = some ⊤ := by
  refine ⟨?_, ?_, ?_, ?_, ?_⟩ <;> with_unfolding_all decide

/-- Neighbour lists of a graph with nonnegative weights have nonnegative
weights. -/
theorem lookupAdj_nonneg (g : AdjList)
    (h_nonneg : ∀ p ∈ g, ∀ nb ∈ p.2, 0 ≤ nb.2) (s : String) :
    ∀ nb ∈ lookupAdj g s, 0 ≤ nb.2 := by
  intro nb hnb
  unfold lookupAdj at hnb
  rcases hfind : g.find? (fun p => decide (p.1 = s)) with _ | entry
  · rw [hfind] at hnb
    simp at hnb
  · rw [hfind] at hnb
    exact h_nonneg entry (List.mem_of_find?_eq_some hfind) nb hnb

/-- One relaxation pass preserves the Dijkstra invariant. -/
theorem relaxAll_inv (s current : String) (nbrs : List (String × ℚ))
    (hw : ∀ q ∈ nbrs, 0 ≤ q.2) (st : DState) (h : dijkstraInv s st) :
    dijkstraInv s (relaxAll current nbrs st) := by
  unfold relaxAll
  induction nbrs generalizing st with
  | nil => exact h
  | cons p l ih =>
      rw [List.foldl_cons]
      refine ih (fun q hq => hw q (List.mem_cons_of_mem p hq)) _ ?_
      obtain ⟨hst, hd0, hp0, hnn⟩ := h
      by_cases hlt : st.dists current + (p.2 : DistW) < st.dists p.1
      · have hnew : 0 ≤ st.dists current + (p.2 : DistW) := by
          refine add_nonneg (hnn current) ?_
          exact_mod_cast (hw p (List.mem_cons_self p l))
        have hp1 : p.1 ≠ s := by
          intro he
          rw [he, hd0] at hlt
          exact absurd (lt_of_le_of_lt hnew hlt) (lt_irrefl 0)
        rw [if_pos hlt]
        refine ⟨hst, ?_, ?_, ?_⟩
        · show (if s = p.1 then _ else st.dists s) = 0
          rw [if_neg (Ne.symm hp1), hd0]
        · show (if s = p.1 then _ else st.parents s) = none
          rw [if_neg (Ne.symm hp1), hp0]
        · intro x
          show 0 ≤ if x = p.1 then _ else st.dists x
          by_cases hx : x = p.1
          · rw [if_pos hx]; exact hnew
          · rw [if_neg hx]; exact hnn x
      · rw [if_neg hlt]
        exact ⟨hst, hd0, hp0, hnn⟩

/-- The main Dijkstra loop preserves the invariant. -/
theorem dijkstraLoop_inv (g : AdjList)
    (h_nonneg : ∀ p ∈ g, ∀ nb ∈ p.2, 0 ≤ nb.2) (s : String) :
    ∀ (fuel : Nat) (st : DState) (queue : List String),
      dijkstraInv s st → dijkstraInv s (dijkstraLoop g fuel st queue) := by
  intro fuel
  induction fuel with
  | zero => intro st queue h; exact h
  | succ n ih =>
      intro st queue h
      unfold dijkstraLoop
      rcases hmin : getMinDist st.dists queue with _ | pr
      · exact h
      · exact ih _ pr.2 (relaxAll_inv s pr.1 _ (lookupAdj_nonneg g h_nonneg pr.1) st h)

/-- `construct_paths` establishes the invariant. -/
theorem construct_paths_inv (g : AdjList)
    (h_nonneg : ∀ p ∈ g, ∀ nb ∈ p.2, 0 ≤ nb.2) (s : String) :
    dijkstraInv s (construct_paths g s) := by
  refine dijkstraLoop_inv g h_nonneg s _ _ _ ⟨rfl, ?_, rfl, ?_⟩
  · show (if s = s then (0 : DistW) else ⊤) = 0
    rw [if_pos rfl]
  · intro x
    show (0 : DistW) ≤ if x = s then 0 else ⊤
    by_cases hx : x = s
    · rw [if_pos hx]
    · rw [if_neg hx]; exact le_top

/-- Backtracking from `none` returns the accumulator at any fuel. -/
theorem backtrackPath_none (par : String → Option String)
    (nodes : List String) (fuel : Nat) (acc : List String) :
    backtrackPath par nodes fuel none acc = acc := by
  cases fuel <;> rfl

/-- The Dijkstra query from a node to itself (nonnegative weights):
path is the singleton and distance is zero. -/
theorem diag_search (g : AdjList)
    (h_nonneg : ∀ p ∈ g, ∀ nb ∈ p.2, 0 ≤ nb.2) (f : String)
    (hf : f ∈ nodesOf g) :
    (djSearch g (construct_paths g f) f).1 = [f]
    ∧ (djSearch g (construct_paths g f) f).2 = 0 := by
  obtain ⟨hstart, hdist0, hpar, hnn⟩ := construct_paths_inv g h_nonneg f
  constructor
  · show find_shortest_path _ _ f = [f]
    unfold find_shortest_path
    rw [if_pos (Or.inl hf)]
    have hstep : backtrackPath (construct_paths g f).parents (nodesOf g)
        ((nodesOf g).length + 1) (some f) []
        = backtrackPath (construct_paths g f).parents (nodesOf g)
          ((nodesOf g).length) ((construct_paths g f).parents f) [f] := by
      simp [backtrackPath, hf]
    rw [hstep, hpar, backtrackPath_none]
  · exact hdist0

/-- Reversal commutes with the keep-longer cell update. -/
theorem keepLonger_reverse (o : Option (List String)) (p : List String) :
    (keepLonger o p).map List.reverse = keepLonger (o.map List.reverse) p.reverse := by
  rcases o with _ | e
  · rfl
  · show (if e.length < p.length then some p else some e).map List.reverse
      = if e.reverse.length < p.reverse.length then some p.reverse else some e.reverse
    rw [List.length_reverse, List.length_reverse]
    by_cases h : e.length < p.length
    · rw [if_pos h, if_pos h]; rfl
    · rw [if_neg h, if_neg h]; rfl

/-- The paired path recordings of one enhancement iteration preserve the
reverse-symmetry of the intermediate-station table, as long as a pair
with equal endpoints records a palindromic path. -/
theorem updInter_pair_symm (T : String → String → Option (List String))
    (hT : ∀ a b, (T a b).map List.reverse = T b a) (f t : String)
    (p : List String) (hp : f = t → p.reverse = p) (a b : String) :
    ((updInter (updInter T f t p) t f p.reverse) a b).map List.reverse
      = (updInter (updInter T f t p) t f p.reverse) b a := by
  by_cases hft : f = t
  · subst hft
    have hpal : p.reverse = p := hp rfl
    have hU2 : ∀ x y, updInter (updInter T f f p) f f p.reverse x y
        = if x = f ∧ y = f then keepLonger (keepLonger (T f f) p) p.reverse
          else T x y := by
      intro x y
      by_cases hxy : x = f ∧ y = f
      · simp only [updInter, if_pos hxy]
        simp
      · simp only [updInter, if_neg hxy]
    by_cases hab : a = f ∧ b = f
    · rw [hU2 a b, hU2 b a, if_pos hab, if_pos (And.intro hab.2 hab.1)]
      rcases hTff : T f f with _ | e
      · simp [keepLonger, List.length_reverse, hpal]
      · have he : e.reverse = e := by
          have h3 := hT f f
          rw [hTff] at h3
          simpa using h3
        by_cases hlen : e.length < p.length
        · simp [keepLonger, hlen, List.length_reverse, hpal]
        · simp [keepLonger, hlen, List.length_reverse, he]
    · rw [hU2 a b, hU2 b a, if_neg hab, if_neg (fun h => hab ⟨h.2, h.1⟩)]
      exact hT a b
  · have hU : ∀ x y, updInter (updInter T f t p) t f p.reverse x y
        = if x = t ∧ y = f then keepLonger (T t f) p.reverse
          else if x = f ∧ y = t then keepLonger (T f t) p
          else T x y := by
      intro x y
      by_cases hxy1 : x = t ∧ y = f
      · have hcc : ¬(t = f ∧ f = t) := fun h => hft h.1.symm
        simp only [updInter, if_pos hxy1, if_neg hcc]
      · by_cases hxy2 : x = f ∧ y = t
        · simp only [updInter, if_neg hxy1, if_pos hxy2]
        · simp only [updInter, if_neg hxy1, if_neg hxy2]
    by_cases h1 : a = t ∧ b = f
    · have hc1 : ¬(b = t ∧ a = f) := fun h => hft (h1.2.symm.trans h.1)
      have hc2 : b = f ∧ a = t := ⟨h1.2, h1.1⟩
      rw [hU a b, hU b a, if_pos h1, if_neg hc1, if_pos hc2]
      rw [keepLonger_reverse, List.reverse_reverse, hT t f]
    · by_cases h2 : a = f ∧ b = t
      · have hc1 : b = t ∧ a = f := ⟨h2.2, h2.1⟩
        rw [hU a b, hU b a, if_neg h1, if_pos h2, if_pos hc1]
        rw [keepLonger_reverse, hT f t]
      · rw [hU a b, hU b a, if_neg h1, if_neg h2,
          if_neg (fun h => h2 ⟨h.2, h.1⟩), if_neg (fun h => h1 ⟨h.2, h.1⟩)]
        exact hT a b

/-- The paired distance writes of one enhancement iteration preserve the
symmetry of the distances table. -/
theorem updDist_pair_symm (D : String → String → Option DistW)
    (hD : ∀ a b, D a b = D b a) (f t : String) (v : DistW) (a b : String) :
    updDist (updDist D f t v) t f v a b = updDist (updDist D f t v) t f v b a := by
  have hs1 : (b = t ∧ a = f) ↔ (a = f ∧ b = t) := and_comm
  have hs2 : (b = f ∧ a = t) ↔ (a = t ∧ b = f) := and_comm
  simp only [updDist, hs1, hs2]
  by_cases h1 : a = t ∧ b = f <;> by_cases h2 : a = f ∧ b = t <;>
    simp [h1, h2, hD a b]

/-- A station that is not a graph key has an empty neighbour list. -/
theorem lookupAdj_eq_nil_of_not_node (g : AdjList) (f : String)
    (hf : f ∉ nodesOf g) : lookupAdj g f = [] := by
  unfold lookupAdj
  rcases hfind : g.find? (fun p => decide (p.1 = f)) with _ | entry
  · rw [hfind]
  · exfalso
    have hmem := List.mem_of_find?_eq_some hfind
    have hdec := List.find?_some hfind
    have hpred : entry.1 = f := by simpa using hdec
    exact hf (hpred ▸ List.mem_map_of_mem (fun p => p.1) hmem)

/-- A missing key yields no direct distance. -/
theorem adjOpt_none_of_not_node (g : AdjList) (f t : String)
    (hf : f ∉ nodesOf g) : adjOpt g f t = none := by
  unfold adjOpt
  rw [lookupAdj_eq_nil_of_not_node g f hf]
  rfl

/-- In a closed graph, a recorded direct distance points at a node. -/
theorem adjOpt_some_mem (g : AdjList) (f t : String) (w : ℚ)
    (h_closed : ∀ p ∈ g, ∀ nb ∈ p.2, nb.1 ∈ nodesOf g)
    (h : adjOpt g f t = some w) : t ∈ nodesOf g := by
  unfold adjOpt at h
  rcases hfind : (lookupAdj g f).find? (fun p => decide (p.1 = t)) with _ | q
  · rw [hfind] at h
    simp at h
  · have hq := List.mem_of_find?_eq_some hfind
    have hdec := List.find?_some hfind
    have hqt : q.1 = t := by simpa using hdec
    unfold lookupAdj at hq
    rcases hg : g.find? (fun p => decide (p.1 = f)) with _ | entry
    · rw [hg] at hq
      simp at hq
    · rw [hg] at hq
      exact hqt ▸ h_closed entry (List.mem_of_find?_eq_some hg) q hq

/-- The initial distances dict of a symmetric closed graph is symmetric
on all strings. -/
theorem initDistances_symm (g : AdjList)
    (h_sym : ∀ f ∈ nodesOf g, ∀ t ∈ nodesOf g, adjOpt g f t = adjOpt g t f)
    (h_closed : ∀ p ∈ g, ∀ nb ∈ p.2, nb.1 ∈ nodesOf g) :
    ∀ a b, initDistances g a b = initDistances g b a := by
  intro a b
  by_cases ha : a ∈ nodesOf g <;> by_cases hb : b ∈ nodesOf g
  · unfold initDistances
    rw [h_sym a ha b hb]
  · have h1 : adjOpt g a b = none := by
      rcases hob : adjOpt g a b with _ | w
      · rfl
      · exact absurd (adjOpt_some_mem g a b w h_closed hob) hb
    unfold initDistances
    rw [h1, adjOpt_none_of_not_node g b a hb]
  · have h1 : adjOpt g b a = none := by
      rcases hob : adjOpt g b a with _ | w
      · rfl
      · exact absurd (adjOpt_some_mem g b a w h_closed hob) ha
    unfold initDistances
    rw [h1, adjOpt_none_of_not_node g a b ha]
  · unfold initDistances
    rw [adjOpt_none_of_not_node g a b ha, adjOpt_none_of_not_node g b a hb]

/-- One iteration of the enhancement loop preserves symmetry of both
tables, provided the pair's origin is a graph node (the pass raises
`KeyError` otherwise). -/
theorem enhanceStep_symm (g0 : AdjList)
    (h_nonneg : ∀ p ∈ g0, ∀ nb ∈ p.2, 0 ≤ nb.2)
    (es : EnhanceState) (f t : String)
    (hin1 : f ∈ nodesOf g0) (hes : SymInv es) :
    SymInv (enhanceStep g0 es (f, t)) := by
  obtain ⟨hD, hT⟩ := hes
  unfold enhanceStep
  dsimp only
  rcases hd : es.distances f t with _ | v
  · dsimp only
    by_cases hft : f = t
    · subst hft
      obtain ⟨hpath, hdist⟩ := diag_search g0 h_nonneg f hin1
      rw [hpath, hdist]
      rw [if_neg (by simp : ¬(([f] : List String) ≠ [] ∧ (0 : DistW) < 0))]
      refine ⟨hD, ?_⟩
      intro a b
      exact updInter_pair_symm es.inter hT f f [f] (fun _ => rfl) a b
    · by_cases hc : ((djSearch g0 (construct_paths g0 f) t).1 ≠ []
          ∧ 0 < (djSearch g0 (construct_paths g0 f) t).2)
      · rw [if_pos hc]
        refine ⟨?_, ?_⟩
        · intro a b
          exact updDist_pair_symm es.distances hD f t _ a b
        · intro a b
          exact updInter_pair_symm es.inter hT f t _ (fun h => absurd h hft) a b
      · rw [if_neg hc]
        refine ⟨hD, ?_⟩
        intro a b
        exact updInter_pair_symm es.inter hT f t _ (fun h => absurd h hft) a b
  · dsimp only
    refine ⟨hD, ?_⟩
    intro a b
    exact updInter_pair_symm es.inter hT f t [f, t]
      (fun h => by rw [h]; simp) a b

/-- The whole enhancement fold preserves symmetry. -/
theorem enhance_fold_symm (g0 : AdjList)
    (h_nonneg : ∀ p ∈ g0, ∀ nb ∈ p.2, 0 ≤ nb.2) :
    ∀ (pairs : List (String × String)) (es : EnhanceState), SymInv es →
      (∀ q ∈ pairs, q.1 ∈ nodesOf g0) →
      SymInv (pairs.foldl (enhanceStep g0) es) := by
  intro pairs
  induction pairs with
  | nil => intro es h _; exact h
  | cons q l ih =>
      intro es h hq
      rw [List.foldl_cons]
      exact ih _ (enhanceStep_symm g0 h_nonneg es q.1 q.2 (hq q (List.mem_cons_self q l)) h)
        (fun r hr => hq r (List.mem_cons_of_mem q hr))

/-- C6: after the graph-completion pass over a symmetric, closed,
nonnegatively-weighted neighbour graph whose processed pairs start at
graph nodes, the completed distance graph is symmetric — for every pair
of stations the distance recorded for (a,b) equals the one for (b,a) —
and the intermediate path recorded for (a,b) is the exact reverse of the
one recorded for (b,a). -/
theorem completed_graph_symmetric (g0 : AdjList)
    (pairs : List (String × String)) (a b : String)
    (h_sym : ∀ f ∈ nodesOf g0, ∀ t ∈ nodesOf g0, adjOpt g0 f t = adjOpt g0 t f)
    (h_closed : ∀ p ∈ g0, ∀ nb ∈ p.2, nb.1 ∈ nodesOf g0)
    (h_nonneg : ∀ p ∈ g0, ∀ nb ∈ p.2, 0 ≤ nb.2)
    (h_pairs : ∀ q ∈ pairs, q.1 ∈ nodesOf g0) :
    (enhance_distances_dict g0 pairs).distances a b
      = (enhance_distances_dict g0 pairs).distances b a
    ∧ ((enhance_distances_dict g0 pairs).inter a b).map List.reverse
      = (enhance_distances_dict g0 pairs).inter b a := by
  have hmain : SymInv (enhance_distances_dict g0 pairs) := by
    refine enhance_fold_symm g0 h_nonneg pairs _ ⟨?_, ?_⟩ h_pairs
    · exact initDistances_symm g0 h_sym h_closed
    · intro x y
      rfl
  exact ⟨hmain.1 a b, hmain.2 a b⟩

/-- Witness for C6: the hypotheses hold for `g6` with the single pair
(A,C), and the theorem yields both symmetry conclusions there. -/
theorem completed_graph_symmetric_witness :
    ((∀ f ∈ nodesOf g6, ∀ t ∈ nodesOf g6, adjOpt g6 f t = adjOpt g6 t f)
      ∧ (∀ p ∈ g6, ∀ nb ∈ p.2, nb.1 ∈ nodesOf g6)
      ∧ (∀ p ∈ g6, ∀ nb ∈ p.2, 0 ≤ nb.2)
      ∧ (∀ q ∈ [(("A" : String), ("C" : String))], q.1 ∈ nodesOf g6))
    ∧ (enhance_distances_dict g6 [("A", "C")]).distances "A" "C"
        = (enhance_distances_dict g6 [("A", "C")]).distances "C" "A"
    ∧ ((enhance_distances_dict g6 [("A", "C")]).inter "A" "C").map List.reverse
        = (enhance_distances_dict g6 [("A", "C")]).inter "C" "A" :=
  ⟨⟨by decide, by decide, by decide, by decide⟩,
    (completed_graph_symmetric g6 [("A", "C")] "A" "C"
      (by decide) (by decide) (by decide) (by decide)).1,
    (completed_graph_symmetric g6 [("A", "C")] "A" "C"
      (by decide) (by decide) (by decide) (by decide)).2⟩

/-- One incumbent update never lowers the best distance. -/
theorem stepIncumbent_le (b : ℚ) (s n : PureState) :
    b ≤ (GreedyDFS.stepIncumbent b s n).1 := by
  unfold GreedyDFS.stepIncumbent
  by_cases h : n.total_distance > b
  · rw [if_pos h]
    exact le_of_lt h
  · rw [if_neg h]

/-- A run's best distance dominates its starting value. -/
theorem runIncumbent_le (tr : List PureState) :
    ∀ (b : ℚ) (s : PureState), b ≤ (GreedyDFS.runIncumbent b s tr).1 := by
  induction tr with
  | nil => intro b s; exact le_refl b
  | cons n l ih =>
      intro b s
      unfold GreedyDFS.runIncumbent at ih ⊢
      rw [List.foldl_cons]
      exact le_trans (stepIncumbent_le b s n)
        (ih _ (GreedyDFS.stepIncumbent b s n).2)

/-- The two strategies' incumbent updates are the same function. -/
theorem stepIncumbent_same : ExploreSet.stepIncumbent = GreedyDFS.stepIncumbent :=
  rfl

/-- C7: in both search strategies the incumbent best distance is
non-decreasing along a run (any extension of the trace can only raise
it), and the incumbent pair is replaced exactly when the newly created
state's cumulative counted distance strictly exceeds the current best. -/
theorem incumbent_monotone_and_replacement (b0 : ℚ) (s0 : PureState)
    (tr tr' : List PureState) (b : ℚ) (s n : PureState) :
    (GreedyDFS.runIncumbent b0 s0 tr).1
        ≤ (GreedyDFS.runIncumbent b0 s0 (tr ++ tr')).1
    ∧ (ExploreSet.runIncumbent b0 s0 tr).1
        ≤ (ExploreSet.runIncumbent b0 s0 (tr ++ tr')).1
    ∧ (GreedyDFS.stepIncumbent b s n ≠ (b, s) ↔ b < n.total_distance)
    ∧ (ExploreSet.stepIncumbent b s n ≠ (b, s) ↔ b < n.total_distance)
    ∧ GreedyDFS.stepIncumbent b s n
        = (if b < n.total_distance then (n.total_distance, n) else (b, s))
    ∧ ExploreSet.stepIncumbent b s n
        = (if b < n.total_distance then (n.total_distance, n) else (b, s)) := by
  have hmono : (GreedyDFS.runIncumbent b0 s0 tr).1
      ≤ (GreedyDFS.runIncumbent b0 s0 (tr ++ tr')).1 := by
    unfold GreedyDFS.runIncumbent
    rw [List.foldl_append]
    exact runIncumbent_le tr' _ _
  have hrepl : GreedyDFS.stepIncumbent b s n ≠ (b, s) ↔ b < n.total_distance := by
    constructor
    · intro hne
      by_contra hnl
      exact hne (if_neg hnl)
    · intro hlt heq
      have h1 : (GreedyDFS.stepIncumbent b s n).1 = n.total_distance := by
        unfold GreedyDFS.stepIncumbent
        rw [if_pos hlt]
      rw [heq] at h1
      rw [← h1] at hlt
      exact lt_irrefl b hlt
  have hif : GreedyDFS.stepIncumbent b s n
      = (if b < n.total_distance then (n.total_distance, n) else (b, s)) := rfl
  exact ⟨hmono, hmono, hrepl, stepIncumbent_same ▸ hrepl, hif,
    stepIncumbent_same ▸ hif⟩

/-- Every row of a successful `.apply` comes from an input leg. -/
theorem applyRows_mem (f : Leg → Option ScoredRow) :
    ∀ (opts : List Leg) (rows : List ScoredRow),
      applyRows f opts = some rows → ∀ r ∈ rows, ∃ l ∈ opts, f l = some r := by
  intro opts
  induction opts with
  | nil =>
      intro rows h r hr
      cases h
      simp at hr
  | cons l ls ih =>
      intro rows h r hr
      unfold applyRows at h
      rcases hfl : f l with _ | r1
      · rw [hfl] at h
        simp at h
      · rw [hfl] at h
        rcases hrest : applyRows f ls with _ | rs
        · rw [hrest] at h
          simp at h
        · rw [hrest] at h
          cases h
          rcases List.mem_cons.mp hr with heq | hmem
          · exact ⟨l, List.mem_cons_self l ls, heq ▸ hfl⟩
          · obtain ⟨l2, hl2, hfl2⟩ := ih rs hrest r hmem
            exact ⟨l2, List.mem_cons_of_mem l hl2, hfl2⟩

/-- Inversion of one row's scoring: the recorded columns satisfy the
scoring formulas. -/
theorem scoreRow_inv (state_time : Int) (ri : RouteIndicator) (l : Leg)
    (r : ScoredRow) (h : scoreRow state_time ri l = some r) :
    r.leg = l
    ∧ r.waiting_time = l.departure_int - state_time
    ∧ ri.get_distance_counted l.station l.To l.train_type l.distance
        = some r.distance_counted
    ∧ r.score = r.distance_counted / ((r.waiting_time : ℚ)
        + ((l.arrival_int - l.departure_int : Int) : ℚ)) := by
  unfold scoreRow at h
  rcases hg : ri.get_distance_counted l.station l.To l.train_type l.distance
      with _ | dc
  · rw [hg] at h
    simp at h
  · rw [hg] at h
    cases h
    exact ⟨rfl, rfl, rfl, rfl⟩

/-- The descending-score comparison is transitive. -/
theorem scoreLe_trans : ∀ a b c : ScoredRow,
    decide (b.score ≤ a.score) = true → decide (c.score ≤ b.score) = true →
      decide (c.score ≤ a.score) = true := by
  intro a b c hab hbc
  exact decide_eq_true (le_trans (of_decide_eq_true hbc) (of_decide_eq_true hab))

/-- The descending-score comparison is total. -/
theorem scoreLe_total : ∀ a b : ScoredRow,
    (decide (b.score ≤ a.score) || decide (a.score ≤ b.score)) = true := by
  intro a b
  rcases le_total b.score a.score with h | h <;> simp [h]

/-- C8: the greedy depth-first search and the best-first frontier search
apply the same scoring function: the two `_apply_score_function`s are one
function, and on success the result keeps at most the top 2 candidates,
sorted by descending score, every kept row coming from the candidate set
with waiting time measured from the state clock, counted distance drawn
from the ledger, and score equal to counted distance over waiting plus
travel time. -/
theorem score_function_shared :
    GreedyDFS.apply_score_function = ExploreSet.apply_score_function
    ∧ ∀ (state_time : Int) (ri : RouteIndicator) (opts : List Leg)
        (out : List ScoredRow),
        GreedyDFS.apply_score_function state_time ri opts = some out →
          out.length ≤ 2
          ∧ List.Sorted (fun r1 r2 => r2.score ≤ r1.score) out
          ∧ ∀ r ∈ out, r.leg ∈ opts
              ∧ r.waiting_time = r.leg.departure_int - state_time
              ∧ ri.get_distance_counted r.leg.station r.leg.To
                  r.leg.train_type r.leg.distance = some r.distance_counted
              ∧ r.score = r.distance_counted / ((r.waiting_time : ℚ)
                  + ((r.leg.arrival_int - r.leg.departure_int : Int) : ℚ)) := by
  constructor
  · rfl
  · intro state_time ri opts out h
    unfold GreedyDFS.apply_score_function at h
    rcases happ : applyRows (scoreRow state_time ri) opts with _ | rows
    · rw [happ] at h
      simp at h
    · rw [happ] at h
      simp only [Option.map_some'] at h
      cases h
      refine ⟨?_, ?_, ?_⟩
      · exact List.length_take_le 2 _
      · have hs := List.sorted_mergeSort scoreLe_trans scoreLe_total rows
        have hs2 : List.Pairwise (fun r1 r2 : ScoredRow => r2.score ≤ r1.score)
            (sortByScoreDesc rows) :=
          hs.imp (fun hab => of_decide_eq_true hab)
        exact hs2.sublist (List.take_sublist 2 _)
      · intro r hr
        have hr2 : r ∈ sortByScoreDesc rows := List.mem_of_mem_take hr
        have hr3 : r ∈ rows :=
          (List.mergeSort_perm rows _).subset hr2
        obtain ⟨l, hl, hfl⟩ := applyRows_mem _ opts rows happ r hr3
        obtain ⟨hleg, hw, hdc, hsc⟩ := scoreRow_inv state_time ri l r hfl
        subst hleg
        exact ⟨hl, hw, hdc, hsc⟩

/-- Witness for C8: the concrete scoring run succeeds and the theorem's
conclusions hold for it. -/
theorem score_function_shared_witness :
    GreedyDFS.apply_score_function 5 riBase [legA] = some [rowA]
    ∧ ([rowA].length ≤ 2
        ∧ List.Sorted (fun r1 r2 : ScoredRow => r2.score ≤ r1.score) [rowA]
        ∧ ∀ r ∈ [rowA], r.leg ∈ [legA]
            ∧ r.waiting_time = r.leg.departure_int - 5
            ∧ riBase.get_distance_counted r.leg.station r.leg.To
                r.leg.train_type r.leg.distance = some r.distance_counted
            ∧ r.score = r.distance_counted / ((r.waiting_time : ℚ)
                + ((r.leg.arrival_int - r.leg.departure_int : Int) : ℚ))) :=
  ⟨by with_unfolding_all decide,
    score_function_shared.2 5 riBase [legA] [rowA]
      (by with_unfolding_all decide)⟩

/-- C9: `State.copy` forks an independent snapshot.  For a well-formed
heap (live references below the allocation frontier), the copy preserves
the parent's observation, any of the six updates applied to the child
leaves the parent's observation unchanged, and any update applied to the
parent leaves the child's observation unchanged. -/
theorem state_copy_independent (m : Mem) (st : StateRef)
    (h : st.tableRef < m.nextId ∧ st.routeRef < m.nextId) (u : StateUpd) :
    obsState (copyState m st).1 (copyState m st).2 = obsState m st
    ∧ obsState (applyStateUpd (copyState m st).1 (copyState m st).2 u).1 st
        = obsState (copyState m st).1 st
    ∧ obsState (applyStateUpd (copyState m st).1 st u).1 (copyState m st).2
        = obsState (copyState m st).1 (copyState m st).2 := by
  obtain ⟨h1, h2⟩ := h
  have hT : st.tableRef ≠ m.nextId := Nat.ne_of_lt h1
  have hR : st.routeRef ≠ m.nextId + 1 := Nat.ne_of_lt (Nat.lt_succ_of_lt h2)
  have hRT : st.tableRef ≠ m.nextId + 1 := Nat.ne_of_lt (Nat.lt_succ_of_lt h1)
  have hTR : st.routeRef ≠ m.nextId := Nat.ne_of_lt h2
  have hNN : m.nextId ≠ m.nextId + 1 := Nat.ne_of_lt (Nat.lt_succ_self m.nextId)
  refine ⟨?_, ?_, ?_⟩
  · simp [obsState, copyState, hT, hR]
  · cases u <;>
      simp [obsState, copyState, applyStateUpd, hT, hR, hRT, hTR, hNN,
        Ne.symm hT, Ne.symm hR, Ne.symm hRT, Ne.symm hTR, Ne.symm hNN]
  · cases u <;>
      simp [obsState, copyState, applyStateUpd, hT, hR, hRT, hTR, hNN,
        Ne.symm hT, Ne.symm hR, Ne.symm hRT, Ne.symm hTR, Ne.symm hNN]

/-- Witness for C9: the well-formedness hypothesis holds for the
concrete heap and the theorem's three conclusions follow for a ledger
update. -/
theorem state_copy_independent_witness :
    (st0.tableRef < m0.nextId ∧ st0.routeRef < m0.nextId)
    ∧ (obsState (copyState m0 st0).1 (copyState m0 st0).2 = obsState m0 st0
      ∧ obsState (applyStateUpd (copyState m0 st0).1 (copyState m0 st0).2
          (StateUpd.updateIndicator "A" "B" TType.S)).1 st0
          = obsState (copyState m0 st0).1 st0
      ∧ obsState (applyStateUpd (copyState m0 st0).1 st0
          (StateUpd.updateIndicator "A" "B" TType.S)).1 (copyState m0 st0).2
          = obsState (copyState m0 st0).1 (copyState m0 st0).2) :=
  ⟨by decide,
    state_copy_independent m0 st0 (by decide)
      (StateUpd.updateIndicator "A" "B" TType.S)⟩

